import Mathlib

/-!
Verification of the optax L-BFGS notebook (`examples/lbfgs.ipynb`) and the
optax transformations it exercises.

The repository ships the notebook (the driver `run_lbfgs`, its
`continuing_criterion`, and the usage of `optax.scale_by_lbfgs`,
`optax.chain`, the two line searches and `optax.value_and_grad_from_state`);
the optax library implementations themselves are not part of the shipped
sources, so they are modelled here from the specification (each such
definition carries a doc comment starting `Modelled from the spec:`).

Parameter trees are modelled as flat vectors of rationals (`List ℚ`); the
spec treats the parameter-tree adapter (add, scale, dot, zeros-like, L2
norm) as an external collaborator, so the concrete leaf arithmetic is a
faithful instantiation, and the L2 norm (the only operation needing square
roots) is kept as an abstract parameter where it occurs.
-/

namespace Optax

/-- A parameter tree, flattened to a vector of rational scalars. -/
abbrev Vec := List ℚ

/-- Elementwise addition of parameter trees. -/
def vadd (a b : Vec) : Vec := List.zipWith (· + ·) a b

/-- Elementwise subtraction of parameter trees. -/
def vsub (a b : Vec) : Vec := List.zipWith (· - ·) a b

/-- Scalar scaling of a parameter tree. -/
def vscale (c : ℚ) (v : Vec) : Vec := v.map (fun x => c * x)

/-- Dot product of two parameter trees. -/
def vdot (a b : Vec) : ℚ := (List.zipWith (· * ·) a b).sum

/-- Zeros-like constructor: a tree of the same shape filled with zeros. -/
def vzeros (v : Vec) : Vec := v.map (fun _ => 0)

/-- A stored secant pair of the History Buffer: parameter difference `s`,
gradient difference `y`, and the cached curvature scalar `ρ = 1/⟨y,s⟩`. -/
structure SecantPair where
  s : Vec
  y : Vec
  rho : ℚ
deriving DecidableEq, Repr

/-- Modelled from the spec: the state of `optax.scale_by_lbfgs`
(`{iteration_count, history_buffer, last_params, last_grad}`), the raw
`(params, grad)` pair being kept for the next call's differencing. -/
structure LbfgsState where
  count : ℕ
  history : List SecantPair
  params : Vec
  grad : Vec
deriving DecidableEq, Repr

/-- Modelled from the spec: ring-buffer admission into the History Buffer of
capacity `m` — the new pair is appended newest-last and the oldest entries
are evicted so that at most `m` remain. -/
def pushPair (m : ℕ) (hist : List SecantPair) (p : SecantPair) : List SecantPair :=
  let l := hist ++ [p]
  l.drop (l.length - m)

/-- Modelled from the spec: initial scaling `γ₀ = ⟨s,y⟩/⟨y,y⟩` from the most
recent (newest-last) pair, or `1` when the history is empty. -/
def gamma0 (hist : List SecantPair) : ℚ :=
  match hist.getLast? with
  | none => 1
  | some p => vdot p.s p.y / vdot p.y p.y

/-- Modelled from the spec: first loop of the two-loop recursion, walking the
pairs newest-to-oldest (input list is newest-first), computing
`α = ρ ⟨s, q⟩` and `q ← q - α y` at each pair; returns the final `q` together
with the visited pairs and their `α`s, newest-first. -/
def firstLoop : List SecantPair → Vec → Vec × List (SecantPair × ℚ)
  | [], q => (q, [])
  | p :: rest, q =>
    let α := p.rho * vdot p.s q
    let (q', acc) := firstLoop rest (vsub q (vscale α p.y))
    (q', (p, α) :: acc)

/-- Modelled from the spec: second loop of the two-loop recursion, walking the
pairs oldest-to-newest (input list is oldest-first), computing `β = ρ ⟨y, r⟩`
and `r ← r + (α - β) s` at each pair. -/
def secondLoop : List (SecantPair × ℚ) → Vec → Vec
  | [], r => r
  | (p, α) :: rest, r =>
    let β := p.rho * vdot p.y r
    secondLoop rest (vadd r (vscale (α - β) p.s))

/-- Modelled from the spec: the two-loop recursion producing the
preconditioned gradient `P_k g` from the History Buffer (stored newest-last)
and the current gradient, with initial scaling `γ₀`. -/
def twoLoop (hist : List SecantPair) (g : Vec) : Vec :=
  let (q, pas) := firstLoop hist.reverse g
  let r := vscale (gamma0 hist) q
  secondLoop pas.reverse r

/-- Modelled from the spec: `optax.scale_by_lbfgs().init(params)` — empty
History Buffer, zero iteration count; reads only the shape of `params`
(zeros-like), never the values or any gradient. -/
def scale_by_lbfgs_init (params : Vec) : LbfgsState :=
  ⟨0, [], vzeros params, vzeros params⟩

/-- Modelled from the spec: `optax.scale_by_lbfgs().update(grad, state, params)`
with memory size `m` and curvature threshold `eps`. If this is not the first
call it forms the candidate secant pair `s = params - last_params`,
`y = grad - last_grad` and admits it only when `⟨y,s⟩ > eps`; it then returns
the two-loop preconditioned gradient `P_k g_k` (no negation) and the new
state with the updated buffer, incremented count and the raw
`(params, grad)` pair. -/
def scale_by_lbfgs_update (m : ℕ) (eps : ℚ) (g : Vec) (st : LbfgsState) (w : Vec) :
    Vec × LbfgsState :=
  let hist :=
    if st.count = 0 then st.history
    else
      let s := vsub w st.params
      let y := vsub g st.grad
      let ys := vdot y s
      if eps < ys then pushPair m st.history ⟨s, y, 1 / ys⟩ else st.history
  (twoLoop hist g, ⟨st.count + 1, hist, w, g⟩)

theorem vzeros_eq_replicate (v : Vec) : vzeros v = List.replicate v.length 0 := by
  simp [vzeros, List.map_const']

theorem vscale_one (v : Vec) : vscale 1 v = v := by
  simp [vscale]

/-- Evaluating the two-loop recursion on an empty History Buffer gives the
raw gradient scaled by `γ₀ = 1`. -/
theorem twoLoop_nil (g : Vec) : twoLoop [] g = vscale 1 g := by
  simp [twoLoop, firstLoop, secondLoop, gamma0]

/-- C1: with an all-zero (empty) History Buffer — the state produced by
`init`, i.e. iteration 0 — the L-BFGS update returns a direction equal to
the input gradient scaled by `γ₀ = 1` (identity preconditioning). -/
theorem lbfgs_update_iter0_identity (m : ℕ) (eps : ℚ) (g w params : Vec) :
    (scale_by_lbfgs_update m eps g (scale_by_lbfgs_init params) w).1 = vscale 1 g ∧
    (scale_by_lbfgs_update m eps g (scale_by_lbfgs_init params) w).1 = g := by
  constructor
  · simp [scale_by_lbfgs_update, scale_by_lbfgs_init, twoLoop_nil]
  · simp [scale_by_lbfgs_update, scale_by_lbfgs_init, twoLoop_nil, vscale_one]

theorem mem_pushPair {m : ℕ} {hist : List SecantPair} {q p : SecantPair}
    (h : p ∈ pushPair m hist q) : p ∈ hist ∨ p = q := by
  simp only [pushPair] at h
  have h' := List.mem_of_mem_drop h
  simpa using h'

theorem vdot_self_nonneg (v : Vec) : 0 ≤ vdot v v := by
  induction v with
  | nil => simp [vdot]
  | cons a t ih =>
    simp only [vdot, List.zipWith_cons_cons, List.sum_cons] at ih ⊢
    exact add_nonneg (mul_self_nonneg a) ih

/-- C2: curvature-condition invariant of the History Buffer. If every stored
secant pair satisfies `⟨y,s⟩ > 0`, then (for a nonnegative threshold `eps`)
every pair stored after an L-BFGS update still satisfies `⟨y,s⟩ > 0`; and a
candidate pair whose curvature `⟨y,s⟩` is `≤ eps` is rejected, leaving the
buffer unchanged by that admission step. -/
theorem lbfgs_curvature_invariant (m : ℕ) (eps : ℚ) (g : Vec) (st : LbfgsState) (w : Vec)
    (heps : 0 ≤ eps) (hinv : ∀ p ∈ st.history, 0 < vdot p.y p.s) :
    (∀ p ∈ (scale_by_lbfgs_update m eps g st w).2.history, 0 < vdot p.y p.s) ∧
    (vdot (vsub g st.grad) (vsub w st.params) ≤ eps →
      (scale_by_lbfgs_update m eps g st w).2.history = st.history) := by
  by_cases hc : st.count = 0
  · constructor
    · intro p hp
      exact hinv p (by simpa [scale_by_lbfgs_update, hc] using hp)
    · intro _
      simp [scale_by_lbfgs_update, hc]
  · by_cases hys : eps < vdot (vsub g st.grad) (vsub w st.params)
    · constructor
      · intro p hp
        have hp' : p ∈ pushPair m st.history
            ⟨vsub w st.params, vsub g st.grad,
              1 / vdot (vsub g st.grad) (vsub w st.params)⟩ := by
          simpa [scale_by_lbfgs_update, hc, hys] using hp
        rcases mem_pushPair hp' with hmem | rfl
        · exact hinv p hmem
        · exact lt_of_le_of_lt heps hys
      · intro hle
        exact absurd hys (not_lt.mpr hle)
    · constructor
      · intro p hp
        exact hinv p (by simpa [scale_by_lbfgs_update, hc, hys] using hp)
      · intro _
        simp [scale_by_lbfgs_update, hc, hys]

/-- Witness for C2: a state at iteration 1 with empty buffer, fed an
adversarial candidate pair with `⟨y,s⟩ = -1 ≤ 0`: the pair is rejected and
the buffer is unchanged (and trivially every stored pair has positive
curvature). -/
theorem lbfgs_curvature_invariant_witness :
    (0:ℚ) ≤ 0 ∧
    ((∀ p ∈ (scale_by_lbfgs_update 10 0 [1] ⟨1, [], [0], [2]⟩ [1]).2.history,
        0 < vdot p.y p.s) ∧
      (scale_by_lbfgs_update 10 0 [1] ⟨1, [], [0], [2]⟩ [1]).2.history = []) := by
  refine ⟨le_refl 0, ?_, ?_⟩
  · exact (lbfgs_curvature_invariant 10 0 [1] ⟨1, [], [0], [2]⟩ [1] (le_refl 0)
      (by simp)).1
  · exact (lbfgs_curvature_invariant 10 0 [1] ⟨1, [], [0], [2]⟩ [1] (le_refl 0)
      (by simp)).2 (by norm_num [vdot, vsub])

/-- C3: the L-BFGS update returns the preconditioned gradient `P_k g_k`
itself — the two-loop direction computed from the post-admission buffer —
with no negation; in particular on iteration 0 (empty buffer) the returned
direction has nonnegative inner product with the gradient, so the descent
sign is the caller's responsibility, as in the notebook's step
`w ← w - lr · u`. -/
theorem lbfgs_update_returns_preconditioned_gradient (m : ℕ) (eps : ℚ) (g : Vec)
    (st : LbfgsState) (w : Vec) :
    (scale_by_lbfgs_update m eps g st w).1 =
      twoLoop (scale_by_lbfgs_update m eps g st w).2.history g ∧
    (st.count = 0 → st.history = [] →
      0 ≤ vdot (scale_by_lbfgs_update m eps g st w).1 g) := by
  refine ⟨rfl, ?_⟩
  intro h1 h2
  simp only [scale_by_lbfgs_update, h1, h2, if_pos, twoLoop_nil, vscale_one]
  exact vdot_self_nonneg g

/-- Witness for C3 at a concrete iteration-0 state: the returned direction
is the two-loop preconditioned gradient and has nonnegative inner product
with the gradient. -/
theorem lbfgs_update_returns_preconditioned_gradient_witness :
    (scale_by_lbfgs_update 10 0 [ (3:ℚ) ] (scale_by_lbfgs_init [0]) [5]).1 =
      twoLoop (scale_by_lbfgs_update 10 0 [ (3:ℚ) ]
        (scale_by_lbfgs_init [0]) [5]).2.history [3] ∧
    0 ≤ vdot (scale_by_lbfgs_update 10 0 [ (3:ℚ) ] (scale_by_lbfgs_init [0]) [5]).1 [3] :=
  ⟨(lbfgs_update_returns_preconditioned_gradient 10 0 [3] (scale_by_lbfgs_init [0]) [5]).1,
    (lbfgs_update_returns_preconditioned_gradient 10 0 [3]
      (scale_by_lbfgs_init [0]) [5]).2 rfl rfl⟩

/-- C9: the initial L-BFGS state depends only on the shape of the parameter
tree, not on its values: two parameter trees of the same shape yield equal
initial states (the notebook calls `opt.init(w_opt)` while optimizing from a
different point `w`). -/
theorem lbfgs_init_shape_only (p1 p2 : Vec) (h : p1.length = p2.length) :
    scale_by_lbfgs_init p1 = scale_by_lbfgs_init p2 := by
  simp [scale_by_lbfgs_init, vzeros_eq_replicate, h]

/-- Witness for C9 at concrete inputs of equal length but different values. -/
theorem lbfgs_init_shape_only_witness :
    ([ (1:ℚ), 2, 3 ] : Vec).length = ([ (7:ℚ), -5, 9 ] : Vec).length ∧
    scale_by_lbfgs_init [ (1:ℚ), 2, 3 ] = scale_by_lbfgs_init [ (7:ℚ), -5, 9 ] :=
  ⟨rfl, lbfgs_init_shape_only [1, 2, 3] [7, -5, 9] rfl⟩

/-- Auxiliary keyword arguments forwarded by the chain to every stage:
the current objective value, the current gradient, and the objective
callable itself. -/
structure Aux where
  value : Option ℚ
  gradv : Option Vec
  fn : Vec → ℚ

/-- A gradient transformation: the uniform `(init, update)` contract.
`update` receives the running update value as its `grad` argument, its own
state, the caller-supplied `params`, and the auxiliary arguments. -/
structure Trans (σ : Type) where
  init : Vec → σ
  update : Vec → σ → Vec → Aux → Vec × σ

/-- Modelled from the spec: `optax.chain(stage_1, …, stage_n).init` — the
tuple (here: list) of child states, each produced from the same params. -/
def chain_init {σ : Type} (ts : List (Trans σ)) (p : Vec) : List σ :=
  ts.map (fun t => t.init p)

/-- Modelled from the spec: `optax.chain(stage_1, …, stage_n).update` —
stage 1 receives the original `grad` and the caller-supplied `params`; each
subsequent stage receives the previous stage's output as its `grad`
argument; the auxiliary arguments are forwarded unchanged to every stage;
execution is left-to-right with no reordering or skipping, and the new state
is the list of the children's new states in order. -/
def chain_update {σ : Type} (ts : List (Trans σ)) (g : Vec) (ss : List σ)
    (p : Vec) (a : Aux) : Vec × List σ :=
  match ts, ss with
  | [], _ => (g, [])
  | _, [] => (g, [])
  | t :: ts, s :: ss =>
    let r := t.update g s p a
    let w := chain_update ts r.1 ss p a
    (w.1, r.2 :: w.2)

/-- C4: left-to-right threading of the chain combinator. Splitting a chain
anywhere, the combined update runs the left stages first on the original
`grad` with the caller's `params` and auxiliary arguments, feeds their
output as the `grad` of the right stages (same `params`, same unchanged
auxiliary arguments), and concatenates the per-stage states in order — so
every stage runs exactly once, in fixed left-to-right order. -/
theorem chain_update_append {σ : Type} (ts us : List (Trans σ)) (g : Vec)
    (ss rr : List σ) (p : Vec) (a : Aux) (h : ss.length = ts.length) :
    chain_update (ts ++ us) g (ss ++ rr) p a =
      ((chain_update us (chain_update ts g ss p a).1 rr p a).1,
       (chain_update ts g ss p a).2 ++
         (chain_update us (chain_update ts g ss p a).1 rr p a).2) := by
  induction ts generalizing g ss with
  | nil =>
    have hss : ss = [] := List.eq_nil_of_length_eq_zero h
    subst hss
    simp [chain_update]
  | cons t ts ih =>
    match ss, h with
    | s :: ss, h =>
      have h' : ss.length = ts.length := by simpa using h
      simp only [List.cons_append, chain_update, List.append_eq]
      rw [ih (t.update g s p a).1 ss h']

/-- Witness for C4 with two concrete stages: a doubling stage followed by a
params-adding stage, split as `[t1] ++ [t2]` with states `[0] ++ [5]`. -/
theorem chain_update_append_witness :
    ([ (0:ℚ) ] : List ℚ).length =
      ([⟨fun _ => 0, fun g s _ _ => (vscale 2 g, s + 1)⟩] : List (Trans ℚ)).length ∧
    chain_update
        ([⟨fun _ => 0, fun g s _ _ => (vscale 2 g, s + 1)⟩] ++
          [⟨fun _ => 0, fun g s p _ => (vadd g p, s * 3)⟩])
        [1] ([0] ++ [5]) [10] ⟨none, none, fun _ => 0⟩ =
      ((chain_update [⟨fun _ => 0, fun g s p _ => (vadd g p, s * 3)⟩]
          (chain_update [⟨fun _ => 0, fun g s _ _ => (vscale 2 g, s + 1)⟩]
            [1] [0] [10] ⟨none, none, fun _ => 0⟩).1 [5] [10]
          ⟨none, none, fun _ => 0⟩).1,
       (chain_update [⟨fun _ => 0, fun g s _ _ => (vscale 2 g, s + 1)⟩]
            [1] [0] [10] ⟨none, none, fun _ => 0⟩).2 ++
         (chain_update [⟨fun _ => 0, fun g s p _ => (vadd g p, s * 3)⟩]
            (chain_update [⟨fun _ => 0, fun g s _ _ => (vscale 2 g, s + 1)⟩]
              [1] [0] [10] ⟨none, none, fun _ => 0⟩).1 [5] [10]
            ⟨none, none, fun _ => 0⟩).2) :=
  ⟨rfl, chain_update_append
    [⟨fun _ => 0, fun g s _ _ => (vscale 2 g, s + 1)⟩]
    [⟨fun _ => 0, fun g s p _ => (vadd g p, s * 3)⟩]
    [1] [0] [5] [10] ⟨none, none, fun _ => 0⟩ rfl⟩

/-- Outcome of a backtracking line-search call: the stepsize taken, the
objective value at that stepsize, and the convergence flag; non-convergence
is reported through `converged = false`, never as an error. -/
structure BtOutcome where
  stepsize : ℚ
  value : ℚ
  converged : Bool
deriving DecidableEq, Repr

/-- Modelled from the spec: the backtracking loop of
`optax.scale_by_backtracking_linesearch`. At each trial stepsize `η` it
evaluates `f(w + η u)` and accepts when the Armijo sufficient-decrease
condition `f(w+ηu) ≤ fk + c1·η·slope` holds (with `slope = ⟨u, g_k⟩`);
otherwise it shrinks `η ← ρ·η` and retries, for `fuel` further trials; when
the budget is exhausted the last trial is returned with its acceptance
status. -/
def backtracking (f : Vec → ℚ) (w u : Vec) (fk slope c1 ρ : ℚ) :
    ℕ → ℚ → BtOutcome
  | 0, η =>
    let fv := f (vadd w (vscale η u))
    ⟨η, fv, decide (fv ≤ fk + c1 * η * slope)⟩
  | n + 1, η =>
    let fv := f (vadd w (vscale η u))
    if fv ≤ fk + c1 * η * slope then ⟨η, fv, true⟩
    else backtracking f w u fk slope c1 ρ n (ρ * η)

/-- Modelled from the spec: `optax.scale_by_backtracking_linesearch` with
budget `max_steps` total evaluations, Armijo constant `c1`, shrink factor
`ρ`, and initial trial stepsize `η0`; the directional slope is
`⟨u, g_k⟩` for the caller-supplied gradient `g`. -/
def scale_by_backtracking_linesearch (max_steps : ℕ) (c1 ρ η0 : ℚ)
    (f : Vec → ℚ) (w u g : Vec) (fk : ℚ) : BtOutcome :=
  backtracking f w u fk (vdot u g) c1 ρ (max_steps - 1) η0

theorem backtracking_spec (f : Vec → ℚ) (w u : Vec) (fk slope c1 ρ : ℚ)
    (fuel : ℕ) (η : ℚ) :
    ((backtracking f w u fk slope c1 ρ fuel η).converged = true →
      f (vadd w (vscale (backtracking f w u fk slope c1 ρ fuel η).stepsize u)) ≤
        fk + c1 * (backtracking f w u fk slope c1 ρ fuel η).stepsize * slope) ∧
    (backtracking f w u fk slope c1 ρ fuel η).value =
      f (vadd w (vscale (backtracking f w u fk slope c1 ρ fuel η).stepsize u)) ∧
    ((backtracking f w u fk slope c1 ρ fuel η).converged = false →
      (backtracking f w u fk slope c1 ρ fuel η).stepsize = ρ ^ fuel * η) := by
  induction fuel generalizing η with
  | zero =>
    refine ⟨?_, rfl, ?_⟩
    · intro h
      simpa [backtracking] using of_decide_eq_true h
    · intro _
      simp [backtracking]
  | succ n ih =>
    by_cases hacc : f (vadd w (vscale η u)) ≤ fk + c1 * η * slope
    · refine ⟨?_, ?_, ?_⟩ <;> simp [backtracking, hacc]
    · have heq : backtracking f w u fk slope c1 ρ (n + 1) η =
          backtracking f w u fk slope c1 ρ n (ρ * η) := by
        simp [backtracking, hacc]
      rw [heq]
      refine ⟨(ih (ρ * η)).1, (ih (ρ * η)).2.1, ?_⟩
      intro h
      rw [(ih (ρ * η)).2.2 h]
      ring

/-- C5: whenever the backtracking line search reports `converged = true`,
the accepted stepsize satisfies the Armijo inequality
`f(w + η u) ≤ fk + c1·η·⟨u, g⟩`, and the value cached in the returned state
equals the objective evaluated at the accepted stepsize. -/
theorem backtracking_converged_armijo (max_steps : ℕ) (c1 ρ η0 fk : ℚ)
    (f : Vec → ℚ) (w u g : Vec)
    (h : (scale_by_backtracking_linesearch max_steps c1 ρ η0 f w u g fk).converged = true) :
    f (vadd w (vscale
        (scale_by_backtracking_linesearch max_steps c1 ρ η0 f w u g fk).stepsize u)) ≤
      fk + c1 * (scale_by_backtracking_linesearch max_steps c1 ρ η0 f w u g fk).stepsize *
        vdot u g ∧
    (scale_by_backtracking_linesearch max_steps c1 ρ η0 f w u g fk).value =
      f (vadd w (vscale
        (scale_by_backtracking_linesearch max_steps c1 ρ η0 f w u g fk).stepsize u)) :=
  ⟨(backtracking_spec f w u fk (vdot u g) c1 ρ (max_steps - 1) η0).1 h,
    (backtracking_spec f w u fk (vdot u g) c1 ρ (max_steps - 1) η0).2.1⟩

/-- Witness for C5 on the spec's test objective `f(η) = η²` along a descent
direction: the accepted stepsize satisfies the Armijo inequality and the
cached value matches the recomputed objective value. -/
theorem backtracking_converged_armijo_witness :
    (scale_by_backtracking_linesearch 1 (1/10000) (1/2) (1/2)
        (fun v => v.headI * v.headI) [1] [-2] [2] 1).converged = true ∧
    ((fun v : Vec => v.headI * v.headI) (vadd [1] (vscale
        (scale_by_backtracking_linesearch 1 (1/10000) (1/2) (1/2)
          (fun v => v.headI * v.headI) [1] [-2] [2] 1).stepsize [-2])) ≤
      1 + (1/10000) * (scale_by_backtracking_linesearch 1 (1/10000) (1/2) (1/2)
          (fun v => v.headI * v.headI) [1] [-2] [2] 1).stepsize * vdot [-2] [2] ∧
      (scale_by_backtracking_linesearch 1 (1/10000) (1/2) (1/2)
          (fun v => v.headI * v.headI) [1] [-2] [2] 1).value =
        (fun v : Vec => v.headI * v.headI) (vadd [1] (vscale
          (scale_by_backtracking_linesearch 1 (1/10000) (1/2) (1/2)
            (fun v => v.headI * v.headI) [1] [-2] [2] 1).stepsize [-2]))) :=
  ⟨by norm_num [scale_by_backtracking_linesearch, backtracking, vadd, vscale, vdot],
    backtracking_converged_armijo 1 (1/10000) (1/2) (1/2) 1
      (fun v => v.headI * v.headI) [1] [-2] [2]
      (by norm_num [scale_by_backtracking_linesearch, backtracking, vadd, vscale, vdot])⟩

/-- C6: when the backtracking line search exhausts its budget without any
trial satisfying the Armijo condition (`converged = false`), it returns the
last stepsize tried, `ρ^(max_steps-1)·η0`, together with the objective value
at that stepsize — and (for a shrink factor in `[0,1]` and a nonnegative
initial stepsize) that stepsize is the smallest of all trials; failure is
reported only through the flag, the function returns normally. -/
theorem backtracking_exhausted_returns_last (max_steps : ℕ) (c1 ρ η0 fk : ℚ)
    (f : Vec → ℚ) (w u g : Vec)
    (h : (scale_by_backtracking_linesearch max_steps c1 ρ η0 f w u g fk).converged = false) :
    (scale_by_backtracking_linesearch max_steps c1 ρ η0 f w u g fk).stepsize =
      ρ ^ (max_steps - 1) * η0 ∧
    (scale_by_backtracking_linesearch max_steps c1 ρ η0 f w u g fk).value =
      f (vadd w (vscale
        (scale_by_backtracking_linesearch max_steps c1 ρ η0 f w u g fk).stepsize u)) ∧
    (0 ≤ ρ → ρ ≤ 1 → 0 ≤ η0 → ∀ k, k ≤ max_steps - 1 →
      (scale_by_backtracking_linesearch max_steps c1 ρ η0 f w u g fk).stepsize ≤
        ρ ^ k * η0) := by
  refine ⟨(backtracking_spec f w u fk (vdot u g) c1 ρ (max_steps - 1) η0).2.2 h,
    (backtracking_spec f w u fk (vdot u g) c1 ρ (max_steps - 1) η0).2.1, ?_⟩
  intro hρ0 hρ1 hη k hk
  have hst : (scale_by_backtracking_linesearch max_steps c1 ρ η0 f w u g fk).stepsize =
      ρ ^ (max_steps - 1) * η0 :=
    (backtracking_spec f w u fk (vdot u g) c1 ρ (max_steps - 1) η0).2.2 h
  rw [hst]
  exact mul_le_mul_of_nonneg_right (pow_le_pow_of_le_one hρ0 hρ1 hk) hη

/-- Witness for C6 on an increasing objective (no trial can satisfy Armijo):
the search reports `converged = false` and returns the last stepsize with
its value, no smaller stepsize having been available. -/
theorem backtracking_exhausted_returns_last_witness :
    (scale_by_backtracking_linesearch 1 (1/2) (1/2) 1
        (fun v => v.headI) [0] [1] [1] 0).converged = false ∧
    (scale_by_backtracking_linesearch 1 (1/2) (1/2) 1
        (fun v => v.headI) [0] [1] [1] 0).stepsize = (1/2 : ℚ) ^ (1 - 1) * 1 ∧
    (scale_by_backtracking_linesearch 1 (1/2) (1/2) 1
        (fun v => v.headI) [0] [1] [1] 0).value =
      (fun v : Vec => v.headI) (vadd [0] (vscale
        (scale_by_backtracking_linesearch 1 (1/2) (1/2) 1
          (fun v => v.headI) [0] [1] [1] 0).stepsize [1])) ∧
    (scale_by_backtracking_linesearch 1 (1/2) (1/2) 1
        (fun v => v.headI) [0] [1] [1] 0).stepsize ≤ (1/2 : ℚ) ^ 0 * 1 := by
  have hconv : (scale_by_backtracking_linesearch 1 (1/2) (1/2) 1
      (fun v => v.headI) [0] [1] [1] 0).converged = false := by
    norm_num [scale_by_backtracking_linesearch, backtracking, vadd, vscale, vdot]
  refine ⟨hconv,
    (backtracking_exhausted_returns_last 1 (1/2) (1/2) 1 0
      (fun v => v.headI) [0] [1] [1] hconv).1,
    (backtracking_exhausted_returns_last 1 (1/2) (1/2) 1 0
      (fun v => v.headI) [0] [1] [1] hconv).2.1,
    (backtracking_exhausted_returns_last 1 (1/2) (1/2) 1 0
      (fun v => v.headI) [0] [1] [1] hconv).2.2
      (by norm_num) (by norm_num) (by norm_num) 0 (by norm_num)⟩

/-- Modelled from the spec: `optax.value_and_grad_from_state(f)` applied to
`(w, state)`, where `cache` is the `(value, grad)` pair held by the state's
most recent line-search stage (`none` when no cached pair exists). With a
cache it returns the cached pair without evaluating the objective; without
one it evaluates the objective (and gradient) once. -/
def value_and_grad_from_state (f : Vec → ℚ) (fg : Vec → Vec)
    (cache : Option (ℚ × Vec)) (w : Vec) : ℚ × Vec :=
  match cache with
  | some vg => vg
  | none => (f w, fg w)

/-- Modelled from the spec: the number of objective evaluations
`value_and_grad_from_state` performs — zero on a cache hit, one otherwise. -/
def value_and_grad_evals (cache : Option (ℚ × Vec)) : ℕ :=
  match cache with
  | some _ => 0
  | none => 1

/-- C8: when the cached pair (if any) is the pair from the most recent
line-search stage — i.e. it equals `(f w, ∇f w)` at the current params —
`value_and_grad_from_state` returns exactly `(f w, ∇f w)`, identical to
always recomputing, while performing zero objective evaluations on a cache
hit and exactly one otherwise. -/
theorem value_and_grad_from_state_correct (f : Vec → ℚ) (fg : Vec → Vec)
    (cache : Option (ℚ × Vec)) (w : Vec)
    (hvalid : cache = none ∨ cache = some (f w, fg w)) :
    value_and_grad_from_state f fg cache w = (f w, fg w) ∧
    value_and_grad_evals cache = (if cache.isSome then 0 else 1) := by
  rcases hvalid with rfl | rfl <;> simp [value_and_grad_from_state, value_and_grad_evals]

/-- Witness for C8 on a cache hit: with the valid cached pair
`(⟨w,w⟩, 2w) = (5, [2,4])` at `w = [1,2]`, the cached pair is returned with
zero evaluations. -/
theorem value_and_grad_from_state_correct_witness :
    value_and_grad_from_state (fun v => vdot v v) (fun v => vscale 2 v)
        (some (5, [2, 4])) [1, 2] =
      ((fun v : Vec => vdot v v) [1, 2], (fun v : Vec => vscale 2 v) [1, 2]) ∧
    value_and_grad_evals (some ((5 : ℚ), ([2, 4] : Vec))) =
      (if (some ((5 : ℚ), ([2, 4] : Vec))).isSome then 0 else 1) :=
  value_and_grad_from_state_correct (fun v => vdot v v) (fun v => vscale 2 v)
    (some (5, [2, 4])) [1, 2]
    (Or.inr (by norm_num [vdot, vscale]))

/-- The optimizer handed to the notebook's `run_lbfgs` driver, with the
accessors the driver uses: `countOf` and `gradOf` model
`otu.tree_get state 'count'` and `otu.tree_get state 'grad'`, and `cacheOf`
models the line-search sub-state's cached `(value, grad)` pair read by
`value_and_grad_from_state`. -/
structure OptPack (σ : Type) where
  init : Vec → σ
  update : Vec → σ → Vec → Aux → Vec × σ
  countOf : σ → ℕ
  gradOf : σ → Vec
  cacheOf : σ → Option (ℚ × Vec)

/-- `optax.apply_updates`: add the update to the parameters. -/
def apply_updates (p u : Vec) : Vec := vadd p u

/-- The notebook's `step` body inside `run_lbfgs`: obtain (or reuse) the
value/gradient pair, call the optimizer's update with the auxiliary
arguments, and apply the returned updates to the parameters. -/
def run_lbfgs_step {σ : Type} (f : Vec → ℚ) (fg : Vec → Vec) (opt : OptPack σ)
    (carry : Vec × σ) : Vec × σ :=
  let vg := value_and_grad_from_state f fg (opt.cacheOf carry.2) carry.1
  let us := opt.update vg.2 carry.2 carry.1 ⟨some vg.1, some vg.2, f⟩
  (apply_updates carry.1 us.1, us.2)

/-- The notebook's `continuing_criterion`:
`(iter_num == 0) | ((iter_num < max_iter) & (err >= tol))` where `err` is
the L2 norm of the gradient stored in the state (the norm `nrm` being the
external parameter-tree adapter's). -/
def continuing_criterion {σ : Type} (opt : OptPack σ) (nrm : Vec → ℚ)
    (max_iter : ℕ) (tol : ℚ) (carry : Vec × σ) : Bool :=
  (opt.countOf carry.2 == 0) ||
    ((decide (opt.countOf carry.2 < max_iter)) && (decide (tol ≤ nrm (opt.gradOf carry.2))))

/-- Fuel-bounded loop modelling `jax.lax.while_loop`: iterate the body while
the condition holds, up to `fuel` iterations. -/
def while_loop {α : Type} (cond : α → Bool) (body : α → α) : ℕ → α → α
  | 0, a => a
  | n + 1, a => if cond a then while_loop cond body n (body a) else a

/-- The notebook's `run_lbfgs` driver: start from
`(init_params, opt.init init_params)` and iterate `step` while
`continuing_criterion` holds. Fuel `max_iter + 1` suffices for the loop to
run to its natural exit (shown by `run_lbfgs_count_bounds`). -/
def run_lbfgs {σ : Type} (f : Vec → ℚ) (fg : Vec → Vec) (opt : OptPack σ)
    (nrm : Vec → ℚ) (max_iter : ℕ) (tol : ℚ) (init_params : Vec) : Vec × σ :=
  while_loop (continuing_criterion opt nrm max_iter tol) (run_lbfgs_step f fg opt)
    (max_iter + 1) (init_params, opt.init init_params)

theorem while_loop_count_le {α : Type} (cond : α → Bool) (body : α → α)
    (cnt : α → ℕ) (hb : ∀ c, cnt (body c) = cnt c + 1) :
    ∀ fuel c, cnt c ≤ cnt (while_loop cond body fuel c) := by
  intro fuel
  induction fuel with
  | zero => intro c; exact le_refl _
  | succ n ih =>
    intro c
    by_cases hc : cond c = true
    · calc cnt c ≤ cnt (body c) := by rw [hb]; exact Nat.le_succ _
        _ ≤ cnt (while_loop cond body n (body c)) := ih (body c)
        _ = cnt (while_loop cond body (n + 1) c) := by rw [while_loop, if_pos hc]
    · simp [while_loop, hc]

theorem while_loop_count_ub {α : Type} (cond : α → Bool) (body : α → α)
    (cnt : α → ℕ) (max_iter : ℕ) (hb : ∀ c, cnt (body c) = cnt c + 1)
    (hcond : ∀ c, cond c = true → cnt c = 0 ∨ cnt c < max_iter)
    (hmax : 1 ≤ max_iter) :
    ∀ fuel c, cnt c ≤ max_iter → cnt (while_loop cond body fuel c) ≤ max_iter := by
  intro fuel
  induction fuel with
  | zero => intro c hc; exact hc
  | succ n ih =>
    intro c hc
    by_cases hcnd : cond c = true
    · rw [while_loop, if_pos hcnd]
      refine ih (body c) ?_
      rw [hb]
      rcases hcond c hcnd with h0 | hlt
      · rw [h0]; exact hmax
      · exact hlt
    · simpa [while_loop, hcnd] using hc

/-- C10: the notebook driver `run_lbfgs` performs at least one optimizer
update step even when the initial gradient norm is already below `tol`
(its `continuing_criterion` is `iter_num == 0 or (iter_num < max_iter and
err ≥ tol)`), and at most `max_iter` update steps in total — measured by the
state's iteration count, which starts at `0` and which each optimizer update
increments by exactly one. -/
theorem run_lbfgs_count_bounds {σ : Type} (f : Vec → ℚ) (fg : Vec → Vec)
    (opt : OptPack σ) (nrm : Vec → ℚ) (max_iter : ℕ) (tol : ℚ) (w0 : Vec)
    (h0 : opt.countOf (opt.init w0) = 0)
    (hinc : ∀ g s p a, opt.countOf (opt.update g s p a).2 = opt.countOf s + 1)
    (hmax : 1 ≤ max_iter) :
    1 ≤ opt.countOf (run_lbfgs f fg opt nrm max_iter tol w0).2 ∧
    opt.countOf (run_lbfgs f fg opt nrm max_iter tol w0).2 ≤ max_iter := by
  have hstep : ∀ c : Vec × σ,
      opt.countOf (run_lbfgs_step f fg opt c).2 = opt.countOf c.2 + 1 := by
    intro c
    exact hinc _ _ _ _
  have hbody : ∀ c : Vec × σ,
      (fun c : Vec × σ => opt.countOf c.2) (run_lbfgs_step f fg opt c) =
        (fun c : Vec × σ => opt.countOf c.2) c + 1 := hstep
  constructor
  · have hcond0 : continuing_criterion opt nrm max_iter tol (w0, opt.init w0) = true := by
      simp [continuing_criterion, h0]
    have hrw : run_lbfgs f fg opt nrm max_iter tol w0 =
        while_loop (continuing_criterion opt nrm max_iter tol) (run_lbfgs_step f fg opt)
          max_iter (run_lbfgs_step f fg opt (w0, opt.init w0)) := by
      rw [run_lbfgs, while_loop, if_pos hcond0]
    rw [hrw]
    have hone : opt.countOf (run_lbfgs_step f fg opt (w0, opt.init w0)).2 = 1 := by
      rw [hstep (w0, opt.init w0)]
      simp [h0]
    calc 1 = opt.countOf (run_lbfgs_step f fg opt (w0, opt.init w0)).2 := hone.symm
      _ ≤ _ := while_loop_count_le _ _ (fun c : Vec × σ => opt.countOf c.2) hbody max_iter _
  · refine while_loop_count_ub _ _ (fun c : Vec × σ => opt.countOf c.2) max_iter hbody
      ?_ hmax (max_iter + 1) (w0, opt.init w0) (by simp [h0])
    intro c hc
    simp only [continuing_criterion, Bool.or_eq_true, beq_iff_eq, Bool.and_eq_true,
      decide_eq_true_eq] at hc
    rcases hc with h | h
    · exact Or.inl h
    · exact Or.inr h.1

/-- Witness for C10 with a concrete optimizer whose state is its iteration
count: with `max_iter = 3` and an initial gradient norm `0` below
`tol = 1`, the driver still takes exactly one step, within the bound. -/
theorem run_lbfgs_count_bounds_witness :
    1 ≤ (OptPack.countOf ⟨fun _ => 0, fun g s _ _ => (g, s + 1), id, fun _ => [0], fun _ => none⟩
        (run_lbfgs (fun _ => 0) (fun _ => [0])
          ⟨fun _ => 0, fun g s _ _ => (g, s + 1), id, fun _ => [0], fun _ => none⟩
          (fun _ => 0) 3 1 [0]).2) ∧
    (OptPack.countOf ⟨fun _ => 0, fun g s _ _ => (g, s + 1), id, fun _ => [0], fun _ => none⟩
        (run_lbfgs (fun _ => 0) (fun _ => [0])
          ⟨fun _ => 0, fun g s _ _ => (g, s + 1), id, fun _ => [0], fun _ => none⟩
          (fun _ => 0) 3 1 [0]).2) ≤ 3 :=
  run_lbfgs_count_bounds (fun _ => 0) (fun _ => [0])
    ⟨fun _ => 0, fun g s _ _ => (g, s + 1), id, fun _ => [0], fun _ => none⟩
    (fun _ => 0) 3 1 [0] rfl (fun _ _ _ _ => rfl) (by norm_num)

/-- An evaluated trial point of the zoom line search: the stepsize, the
objective value there, and the directional derivative there (the zoom
search always evaluates value and gradient jointly). -/
structure ZTrial where
  eta : ℚ
  v : ℚ
  d : ℚ
deriving DecidableEq, Repr

/-- Result of a zoom line-search call: the accepted point (or the best point
found on failure), the convergence flag, and the list of evaluated trials
(in evaluation order). Failure is reported only through
`converged = false`; the search never throws. -/
structure ZoomResult where
  pt : ZTrial
  converged : Bool
  trials : List ZTrial
deriving DecidableEq, Repr

/-- The Armijo sufficient-decrease condition at a trial, against the start
value `f0` and start slope `d0`. -/
def zoomArmijo (f0 d0 c1 : ℚ) (t : ZTrial) : Prop :=
  t.v ≤ f0 + c1 * t.eta * d0

/-- The strong-Wolfe curvature condition at a trial:
`|⟨∇f(w+ηu), u⟩| ≤ -c2·⟨u, g_k⟩`. -/
def zoomCurvature (d0 c2 : ℚ) (t : ZTrial) : Prop :=
  |t.d| ≤ -(c2 * d0)

/-- Modelled from the spec: the zoom phase of
`optax.scale_by_zoom_linesearch`. Within the bracket `[lo, hi]` it takes the
interior point by bisection (the spec's interpolation with its bisection
fallback is modelled by its bisection fallback), evaluates value and
derivative there, and applies the same three checks as the bracketing
phase against the `lo` endpoint; it fails — `converged = false` with the
best point found — when the step budget runs out, when the bracket width
falls below the numerical floor, or when a non-finite (here: `none`)
value/derivative is observed. -/
def zoom_phase (φ : ℚ → Option (ℚ × ℚ)) (f0 d0 c1 c2 floor : ℚ) :
    ℕ → ZTrial → ZTrial → ZTrial → List ZTrial → ZoomResult
  | 0, _, _, best, log => ⟨best, false, log⟩
  | fuel + 1, lo, hi, best, log =>
    if |hi.eta - lo.eta| < floor then ⟨best, false, log⟩
    else
      match φ ((lo.eta + hi.eta) / 2) with
      | none => ⟨best, false, log⟩
      | some (fv, dv) =>
        if fv > f0 + c1 * ((lo.eta + hi.eta) / 2) * d0 ∨ fv ≥ lo.v then
          zoom_phase φ f0 d0 c1 c2 floor fuel lo ⟨(lo.eta + hi.eta) / 2, fv, dv⟩
            (if fv < best.v then ⟨(lo.eta + hi.eta) / 2, fv, dv⟩ else best)
            (log ++ [⟨(lo.eta + hi.eta) / 2, fv, dv⟩])
        else if |dv| ≤ -(c2 * d0) then
          ⟨⟨(lo.eta + hi.eta) / 2, fv, dv⟩, true, log ++ [⟨(lo.eta + hi.eta) / 2, fv, dv⟩]⟩
        else if 0 ≤ dv * (hi.eta - lo.eta) then
          zoom_phase φ f0 d0 c1 c2 floor fuel ⟨(lo.eta + hi.eta) / 2, fv, dv⟩ lo
            (if fv < best.v then ⟨(lo.eta + hi.eta) / 2, fv, dv⟩ else best)
            (log ++ [⟨(lo.eta + hi.eta) / 2, fv, dv⟩])
        else
          zoom_phase φ f0 d0 c1 c2 floor fuel ⟨(lo.eta + hi.eta) / 2, fv, dv⟩ hi
            (if fv < best.v then ⟨(lo.eta + hi.eta) / 2, fv, dv⟩ else best)
            (log ++ [⟨(lo.eta + hi.eta) / 2, fv, dv⟩])

/-- Modelled from the spec: the bracketing phase of
`optax.scale_by_zoom_linesearch`. At each trial stepsize it evaluates value
and derivative, then: (a) Armijo violated or value increased versus the
previous trial — a bracket is found, enter the zoom phase; (b) curvature
condition satisfied — accept immediately; (c) nonnegative derivative —
reversed bracket, enter the zoom phase; otherwise double the stepsize and
continue. Budget exhaustion and non-finite evaluations fail with the best
point found. -/
def bracket_phase (φ : ℚ → Option (ℚ × ℚ)) (f0 d0 c1 c2 floor : ℚ) :
    ℕ → ZTrial → ℚ → ZTrial → List ZTrial → ZoomResult
  | 0, _, _, best, log => ⟨best, false, log⟩
  | fuel + 1, prev, η, best, log =>
    match φ η with
    | none => ⟨best, false, log⟩
    | some (fv, dv) =>
      if fv > f0 + c1 * η * d0 ∨ fv ≥ prev.v then
        zoom_phase φ f0 d0 c1 c2 floor fuel prev ⟨η, fv, dv⟩
          (if fv < best.v then ⟨η, fv, dv⟩ else best) (log ++ [⟨η, fv, dv⟩])
      else if |dv| ≤ -(c2 * d0) then ⟨⟨η, fv, dv⟩, true, log ++ [⟨η, fv, dv⟩]⟩
      else if 0 ≤ dv then
        zoom_phase φ f0 d0 c1 c2 floor fuel ⟨η, fv, dv⟩ prev
          (if fv < best.v then ⟨η, fv, dv⟩ else best) (log ++ [⟨η, fv, dv⟩])
      else
        bracket_phase φ f0 d0 c1 c2 floor fuel ⟨η, fv, dv⟩ (2 * η)
          (if fv < best.v then ⟨η, fv, dv⟩ else best) (log ++ [⟨η, fv, dv⟩])

/-- Modelled from the spec: `optax.scale_by_zoom_linesearch` over the 1-D
restriction of the objective along the search direction: `φ η` returns the
value and directional derivative at stepsize `η` (or `none` for a non-finite
evaluation), `f0` and `d0` are the value and slope at `η = 0`. Starts the
bracketing phase from the initial guess `η0` with the start point as both
the previous trial and the initial best point. -/
def scale_by_zoom_linesearch (max_steps : ℕ) (c1 c2 η0 floor f0 d0 : ℚ)
    (φ : ℚ → Option (ℚ × ℚ)) : ZoomResult :=
  bracket_phase φ f0 d0 c1 c2 floor max_steps ⟨0, f0, d0⟩ η0 ⟨0, f0, d0⟩ []

/-- The best-point invariant carried by the zoom search: the running best
point is either the start point `b0` or one of the evaluated trials, its
value is at most the start value, and it minimizes the value over all
evaluated trials. -/
def ZInv (b0 best : ZTrial) (log : List ZTrial) : Prop :=
  (best = b0 ∨ best ∈ log) ∧ best.v ≤ b0.v ∧ ∀ t ∈ log, best.v ≤ t.v

theorem ZInv_step (eta fv dv : ℚ) {b0 best : ZTrial} {log : List ZTrial}
    (h : ZInv b0 best log) :
    ZInv b0 (if fv < best.v then ⟨eta, fv, dv⟩ else best) (log ++ [⟨eta, fv, dv⟩]) := by
  obtain ⟨hmem, hb0, hmin⟩ := h
  by_cases hlt : fv < best.v
  · rw [if_pos hlt]
    refine ⟨Or.inr (by simp), le_trans hlt.le hb0, ?_⟩
    intro u hu
    rcases List.mem_append.mp hu with hu | hu
    · exact le_trans hlt.le (hmin u hu)
    · simp only [List.mem_singleton] at hu
      rw [hu]
  · rw [if_neg hlt]
    refine ⟨hmem.imp id (fun hm => List.mem_append.mpr (Or.inl hm)), hb0, ?_⟩
    intro u hu
    rcases List.mem_append.mp hu with hu | hu
    · exact hmin u hu
    · simp only [List.mem_singleton] at hu
      rw [hu]
      exact not_lt.mp hlt

set_option maxHeartbeats 1600000 in
theorem zoom_phase_spec (φ : ℚ → Option (ℚ × ℚ)) (f0 d0 c1 c2 floor : ℚ) (b0 : ZTrial) :
    ∀ (fuel : ℕ) (lo hi best : ZTrial) (log : List ZTrial), ZInv b0 best log →
    ((zoom_phase φ f0 d0 c1 c2 floor fuel lo hi best log).converged = true →
      zoomArmijo f0 d0 c1 (zoom_phase φ f0 d0 c1 c2 floor fuel lo hi best log).pt ∧
      zoomCurvature d0 c2 (zoom_phase φ f0 d0 c1 c2 floor fuel lo hi best log).pt ∧
      φ (zoom_phase φ f0 d0 c1 c2 floor fuel lo hi best log).pt.eta =
        some ((zoom_phase φ f0 d0 c1 c2 floor fuel lo hi best log).pt.v,
          (zoom_phase φ f0 d0 c1 c2 floor fuel lo hi best log).pt.d)) ∧
    ((zoom_phase φ f0 d0 c1 c2 floor fuel lo hi best log).converged = false →
      ZInv b0 (zoom_phase φ f0 d0 c1 c2 floor fuel lo hi best log).pt
        (zoom_phase φ f0 d0 c1 c2 floor fuel lo hi best log).trials) := by
  intro fuel
  induction fuel with
  | zero =>
    intro lo hi best log hinv
    exact ⟨fun h => by simp [zoom_phase] at h, fun _ => by simpa [zoom_phase] using hinv⟩
  | succ n ih =>
    intro lo hi best log hinv
    simp only [zoom_phase]
    split
    · exact ⟨fun h => by simp at h, fun _ => hinv⟩
    · split
      · exact ⟨fun h => by simp at h, fun _ => hinv⟩
      · rename_i hw fv dv heq
        split
        · exact ih lo ⟨(lo.eta + hi.eta) / 2, fv, dv⟩ _ _ (ZInv_step _ _ _ hinv)
        · rename_i hnb
          split
          · rename_i hcurv
            push_neg at hnb
            exact ⟨fun _ => ⟨hnb.1, hcurv, heq⟩, fun h => by simp at h⟩
          · split
            · exact ih ⟨(lo.eta + hi.eta) / 2, fv, dv⟩ lo _ _ (ZInv_step _ _ _ hinv)
            · exact ih ⟨(lo.eta + hi.eta) / 2, fv, dv⟩ hi _ _ (ZInv_step _ _ _ hinv)

set_option maxHeartbeats 1600000 in
theorem bracket_phase_spec (φ : ℚ → Option (ℚ × ℚ)) (f0 d0 c1 c2 floor : ℚ) (b0 : ZTrial) :
    ∀ (fuel : ℕ) (prev : ZTrial) (η : ℚ) (best : ZTrial) (log : List ZTrial),
    ZInv b0 best log →
    ((bracket_phase φ f0 d0 c1 c2 floor fuel prev η best log).converged = true →
      zoomArmijo f0 d0 c1 (bracket_phase φ f0 d0 c1 c2 floor fuel prev η best log).pt ∧
      zoomCurvature d0 c2 (bracket_phase φ f0 d0 c1 c2 floor fuel prev η best log).pt ∧
      φ (bracket_phase φ f0 d0 c1 c2 floor fuel prev η best log).pt.eta =
        some ((bracket_phase φ f0 d0 c1 c2 floor fuel prev η best log).pt.v,
          (bracket_phase φ f0 d0 c1 c2 floor fuel prev η best log).pt.d)) ∧
    ((bracket_phase φ f0 d0 c1 c2 floor fuel prev η best log).converged = false →
      ZInv b0 (bracket_phase φ f0 d0 c1 c2 floor fuel prev η best log).pt
        (bracket_phase φ f0 d0 c1 c2 floor fuel prev η best log).trials) := by
  intro fuel
  induction fuel with
  | zero =>
    intro prev η best log hinv
    exact ⟨fun h => by simp [bracket_phase] at h,
      fun _ => by simpa [bracket_phase] using hinv⟩
  | succ n ih =>
    intro prev η best log hinv
    simp only [bracket_phase]
    split
    · exact ⟨fun h => by simp at h, fun _ => hinv⟩
    · rename_i fv dv heq
      split
      · exact zoom_phase_spec φ f0 d0 c1 c2 floor b0 n prev ⟨η, fv, dv⟩ _ _
          (ZInv_step _ _ _ hinv)
      · rename_i hnb
        split
        · rename_i hcurv
          push_neg at hnb
          exact ⟨fun _ => ⟨hnb.1, hcurv, heq⟩, fun h => by simp at h⟩
        · split
          · exact zoom_phase_spec φ f0 d0 c1 c2 floor b0 n ⟨η, fv, dv⟩ prev _ _
              (ZInv_step _ _ _ hinv)
          · exact ih ⟨η, fv, dv⟩ (2 * η) _ _ (ZInv_step _ _ _ hinv)

/-- C7: for every input, the zoom line search returns normally and:
if it reports `converged = true` then the returned point is a genuinely
evaluated trial (its cached value and derivative are `φ` at its stepsize)
satisfying both strong Wolfe conditions — sufficient decrease and
curvature; if it reports `converged = false` (step budget exhausted,
bracket width below the numerical floor, or a non-finite evaluation
observed — the only failure exits of `bracket_phase`/`zoom_phase`), the
returned point is the best point found: the start point or an evaluated
trial, with value at most the start value and minimal among all evaluated
trials. -/
theorem zoom_linesearch_outcome (max_steps : ℕ) (c1 c2 η0 floor f0 d0 : ℚ)
    (φ : ℚ → Option (ℚ × ℚ)) :
    ((scale_by_zoom_linesearch max_steps c1 c2 η0 floor f0 d0 φ).converged = true →
      zoomArmijo f0 d0 c1 (scale_by_zoom_linesearch max_steps c1 c2 η0 floor f0 d0 φ).pt ∧
      zoomCurvature d0 c2 (scale_by_zoom_linesearch max_steps c1 c2 η0 floor f0 d0 φ).pt ∧
      φ (scale_by_zoom_linesearch max_steps c1 c2 η0 floor f0 d0 φ).pt.eta =
        some ((scale_by_zoom_linesearch max_steps c1 c2 η0 floor f0 d0 φ).pt.v,
          (scale_by_zoom_linesearch max_steps c1 c2 η0 floor f0 d0 φ).pt.d)) ∧
    ((scale_by_zoom_linesearch max_steps c1 c2 η0 floor f0 d0 φ).converged = false →
      ((scale_by_zoom_linesearch max_steps c1 c2 η0 floor f0 d0 φ).pt = ⟨0, f0, d0⟩ ∨
        (scale_by_zoom_linesearch max_steps c1 c2 η0 floor f0 d0 φ).pt ∈
          (scale_by_zoom_linesearch max_steps c1 c2 η0 floor f0 d0 φ).trials) ∧
      (scale_by_zoom_linesearch max_steps c1 c2 η0 floor f0 d0 φ).pt.v ≤ f0 ∧
      ∀ t ∈ (scale_by_zoom_linesearch max_steps c1 c2 η0 floor f0 d0 φ).trials,
        (scale_by_zoom_linesearch max_steps c1 c2 η0 floor f0 d0 φ).pt.v ≤ t.v) :=
  bracket_phase_spec φ f0 d0 c1 c2 floor ⟨0, f0, d0⟩ max_steps ⟨0, f0, d0⟩ η0
    ⟨0, f0, d0⟩ [] ⟨Or.inl rfl, le_refl _, by simp⟩

/-- Witness for C7 on the 1-D objective `h(η) = (η-1)²` (so
`f0 = 1`, `d0 = -2`): the first trial `η = 1` is accepted, and both strong
Wolfe conditions hold at the returned point, whose cached value and
derivative are genuine. -/
theorem zoom_linesearch_outcome_witness :
    (scale_by_zoom_linesearch 1 (1/10000) (9/10) 1 (1/1000000) 1 (-2)
        (fun η => some ((η - 1)^2, 2*(η - 1)))).converged = true ∧
    (zoomArmijo 1 (-2) (1/10000)
        (scale_by_zoom_linesearch 1 (1/10000) (9/10) 1 (1/1000000) 1 (-2)
          (fun η => some ((η - 1)^2, 2*(η - 1)))).pt ∧
      zoomCurvature (-2) (9/10)
        (scale_by_zoom_linesearch 1 (1/10000) (9/10) 1 (1/1000000) 1 (-2)
          (fun η => some ((η - 1)^2, 2*(η - 1)))).pt ∧
      (fun η => some ((η - 1)^2, 2*(η - 1)))
          (scale_by_zoom_linesearch 1 (1/10000) (9/10) 1 (1/1000000) 1 (-2)
            (fun η => some ((η - 1)^2, 2*(η - 1)))).pt.eta =
        some ((scale_by_zoom_linesearch 1 (1/10000) (9/10) 1 (1/1000000) 1 (-2)
            (fun η => some ((η - 1)^2, 2*(η - 1)))).pt.v,
          (scale_by_zoom_linesearch 1 (1/10000) (9/10) 1 (1/1000000) 1 (-2)
            (fun η => some ((η - 1)^2, 2*(η - 1)))).pt.d)) := by
  have hconv : (scale_by_zoom_linesearch 1 (1/10000) (9/10) 1 (1/1000000) 1 (-2)
      (fun η => some ((η - 1)^2, 2*(η - 1)))).converged = true := by
    norm_num [scale_by_zoom_linesearch, bracket_phase]
  exact ⟨hconv,
    (zoom_linesearch_outcome 1 (1/10000) (9/10) 1 (1/1000000) 1 (-2)
      (fun η => some ((η - 1)^2, 2*(η - 1)))).1 hconv⟩

end Optax
